import Mathlib

set_option maxHeartbeats 1000000

/-!
Shallow embedding of the gravity simulator (src/main.rs): integer 3-vectors,
bodies with position and velocity, the pairwise signum gravity update, the
two-phase step, energy accounting, and the driver loop in main that steps the
system up to a cap of 1000 iterations while watching for a repeated state.
-/

structure Vec3 where
  x : Int
  y : Int
  z : Int
deriving DecidableEq

/-- Model of `Vec3::new`, the zero vector. -/
def Vec3.new : Vec3 := ⟨0, 0, 0⟩

/-- Model of `AddAssign<Velocity> for Position`: component-wise sum. -/
def Vec3.add (a b : Vec3) : Vec3 := ⟨a.x + b.x, a.y + b.y, a.z + b.z⟩

structure Body where
  position : Vec3
  velocity : Vec3
deriving DecidableEq

/-- Model of `Body::new`: given position, zero velocity. -/
def Body.new (position : Vec3) : Body := ⟨position, Vec3.new⟩

/-- Model of `Body::calc_gravity`: the differences are computed from the two
incoming bodies before any field is written, each velocity axis of `self` is
decremented by the signum of the difference and the same signum is added to
the other body; the returned pair is `(self, other)` after the interaction. -/
def Body.calc_gravity (a b : Body) : Body × Body :=
  let dx := a.position.x - b.position.x
  let dy := a.position.y - b.position.y
  let dz := a.position.z - b.position.z
  (⟨a.position, ⟨a.velocity.x - dx.sign, a.velocity.y - dy.sign, a.velocity.z - dz.sign⟩⟩,
   ⟨b.position, ⟨b.velocity.x + dx.sign, b.velocity.y + dy.sign, b.velocity.z + dz.sign⟩⟩)

/-- Model of `Body::update_pos`: `position += velocity`. -/
def Body.update_pos (b : Body) : Body := ⟨b.position.add b.velocity, b.velocity⟩

/-- Model of `Body::potential_energy`: sum of absolute values of the position
components, computed in signed integers and then converted to unsigned
(`try_into().unwrap()` becomes `Int.toNat`). -/
def Body.potential_energy (b : Body) : Nat :=
  (|b.position.x| + |b.position.y| + |b.position.z|).toNat

/-- Model of `Body::kinetic_energy`: sum of absolute values of the velocity
components, converted to unsigned the same way. -/
def Body.kinetic_energy (b : Body) : Nat :=
  (|b.velocity.x| + |b.velocity.y| + |b.velocity.z|).toNat

/-- Model of `Body::total_energy`: potential times kinetic. -/
def Body.total_energy (b : Body) : Nat := b.potential_energy * b.kinetic_energy

structure System where
  bodies : List Body
deriving DecidableEq

/-- Model of `System::new`: one body per given position, in order. -/
def System.new (positions : List Vec3) : System := ⟨positions.map Body.new⟩

/-- Index pairs visited by `self.bodies.iter().combinations(2)`: every `(i, j)`
with `i < j < n`, in lexicographic order. -/
def pairs (n : Nat) : List (Nat × Nat) :=
  (List.range n).flatMap fun i => ((List.range n).filter fun j => i < j).map fun j => (i, j)

/-- Model of `pair[0].borrow_mut().calc_gravity(pair[1].clone())` for the pair
of indices `(i, j)`: both bodies are read, the interaction is computed, and
both slots are written back. -/
def applyGravityPair (bs : List Body) (i j : Nat) : List Body :=
  match bs[i]?, bs[j]? with
  | some a, some b =>
      let p := Body.calc_gravity a b
      (bs.set i p.1).set j p.2
  | _, _ => bs

/-- Phase 1 of a step: the gravity interaction folded over a list of index
pairs, in order. -/
def gravityFold (bs : List Body) (l : List (Nat × Nat)) : List Body :=
  l.foldl (fun bs p => applyGravityPair bs p.1 p.2) bs

/-- A step whose gravity phase visits an arbitrary list of index pairs;
`System.step` instantiates it with `pairs`. -/
def System.stepWithPairs (s : System) (l : List (Nat × Nat)) : System :=
  ⟨(gravityFold s.bodies l).map Body.update_pos⟩

/-- Model of `System::step`: all pairwise gravity updates, then every
position update. -/
def System.step (s : System) : System :=
  s.stepWithPairs (pairs s.bodies.length)

/-- Model of `System::total_energy`: sum over the bodies. -/
def System.total_energy (s : System) : Nat :=
  (s.bodies.map Body.total_energy).sum

/-- Model of `System::state`: the canonical snapshot, six integers per body in
system order. -/
def System.state (s : System) : List Int :=
  s.bodies.flatMap fun b =>
    [b.position.x, b.position.y, b.position.z, b.velocity.x, b.velocity.y, b.velocity.z]

/-- The two terminal reports of `main`: the total energy printed when the
counter reaches the cap, or the iteration count printed on a duplicate state. -/
inductive Outcome where
  | energyAtCap : Nat → Outcome
  | cycleFound : Nat → Outcome
deriving DecidableEq

/-- Model of the `loop` in `main`, with explicit fuel bounding the number of
iterations; each iteration steps the system, increments the counter, reports
the energy when the counter equals the cap, otherwise reports the counter when
the fresh state is already in the seen set, and otherwise records the state
and continues. -/
def runLoop : Nat → System → List (List Int) → Nat → Nat → Option Outcome
  | 0, _, _, _, _ => none
  | fuel + 1, system, states, count, cap =>
    let s := system.step
    let c := count + 1
    if c = cap then some (.energyAtCap s.total_energy)
    else if s.state ∈ states then some (.cycleFound c)
    else runLoop fuel s (s.state :: states) c cap

/-- Model of `main` after construction: the loop started with an empty seen
set and a zero counter; fuel equal to the cap always suffices, since the
counter check fires at the latest in iteration `cap`. -/
def runMain (system : System) (cap : Nat) : Option Outcome :=
  runLoop cap system [] 0 cap

/-- The hardcoded initial positions of `main`. -/
def mainPositions : List Vec3 := [⟨-19, -4, 2⟩, ⟨-9, 8, -16⟩, ⟨-4, 5, -11⟩, ⟨1, 9, -13⟩]

/-- Iterated stepping. -/
def stepN : Nat → System → System
  | 0, s => s
  | n + 1, s => (stepN n s).step

/-- The canonical state after `n` steps. -/
def stateAt (s : System) (n : Nat) : List Int := (stepN n s).state

/-- The seen-states list as it stands after `m` completed iterations in which
no duplicate and no cap was hit: the states of iterations `1, ..., m`, most
recent first. -/
def seenUpTo (s : System) : Nat → List (List Int)
  | 0 => []
  | m + 1 => stateAt s (m + 1) :: seenUpTo s m

/-- Adding a velocity increment to the body in slot `m`, leaving its position
in place; the two writes of one gravity interaction decompose into this. -/
def addVel (bs : List Body) (m : Nat) (v : Vec3) : List Body :=
  match bs[m]? with
  | some b => bs.set m ⟨b.position, b.velocity.add v⟩
  | none => bs

/-! Basic lemmas about the embedding. -/

/-- Setting a slot to the value it already holds leaves the list unchanged. -/
theorem set_of_getElem_eq {α : Type} : ∀ (l : List α) (i : Nat) (a : α),
    l[i]? = some a → l.set i a = l
  | [], i, a, h => by simp at h
  | x :: xs, 0, a, h => by
      simp at h
      simp [List.set, h]
  | x :: xs, i + 1, a, h => by
      simp at h
      simp [List.set_cons_succ, set_of_getElem_eq xs i a h]

/-- Interaction of a body with itself leaves the second output unchanged: the
position difference is zero, so every signum is zero. -/
theorem calc_gravity_self (a : Body) : (Body.calc_gravity a a).2 = a := by
  simp [Body.calc_gravity]

/-- A self-pair is a no-op on the body list. -/
theorem applyGravityPair_self (bs : List Body) (i : Nat) :
    applyGravityPair bs i i = bs := by
  unfold applyGravityPair
  cases h : bs[i]? with
  | none => rfl
  | some a =>
    simp only [List.set_set, calc_gravity_self]
    exact set_of_getElem_eq bs i a h

/-- C1: for a pair of bodies the gravity interaction computes the per-axis
position difference of the incoming (pre-interaction) bodies, subtracts its
signum from the velocity of the first body on each axis, adds the same signum
to the velocity of the second body, and leaves both positions unchanged. -/
theorem calc_gravity_spec (a b : Body) :
    (Body.calc_gravity a b).1.position = a.position ∧
    (Body.calc_gravity a b).2.position = b.position ∧
    (Body.calc_gravity a b).1.velocity.x
      = a.velocity.x - (a.position.x - b.position.x).sign ∧
    (Body.calc_gravity a b).1.velocity.y
      = a.velocity.y - (a.position.y - b.position.y).sign ∧
    (Body.calc_gravity a b).1.velocity.z
      = a.velocity.z - (a.position.z - b.position.z).sign ∧
    (Body.calc_gravity a b).2.velocity.x
      = b.velocity.x + (a.position.x - b.position.x).sign ∧
    (Body.calc_gravity a b).2.velocity.y
      = b.velocity.y + (a.position.y - b.position.y).sign ∧
    (Body.calc_gravity a b).2.velocity.z
      = b.velocity.z + (a.position.z - b.position.z).sign :=
  ⟨rfl, rfl, rfl, rfl, rfl, rfl, rfl, rfl⟩

/-- C6: potential energy is the sum of absolute position components, kinetic
energy the sum of absolute velocity components, total energy their product,
and both signed sums are non-negative, so the signed-to-unsigned conversion
(`try_into().unwrap()`, here `Int.toNat`) is lossless and cannot fail. -/
theorem energy_spec (b : Body) :
    0 ≤ |b.position.x| + |b.position.y| + |b.position.z| ∧
    (b.potential_energy : Int) = |b.position.x| + |b.position.y| + |b.position.z| ∧
    0 ≤ |b.velocity.x| + |b.velocity.y| + |b.velocity.z| ∧
    (b.kinetic_energy : Int) = |b.velocity.x| + |b.velocity.y| + |b.velocity.z| ∧
    b.total_energy = b.potential_energy * b.kinetic_energy := by
  have hp : 0 ≤ |b.position.x| + |b.position.y| + |b.position.z| := by positivity
  have hk : 0 ≤ |b.velocity.x| + |b.velocity.y| + |b.velocity.z| := by positivity
  exact ⟨hp, Int.toNat_of_nonneg hp, hk, Int.toNat_of_nonneg hk, rfl⟩

/-- C8: the simulation is deterministic; equal initial position lists and
equal step counts give identical canonical states and identical total
energies. -/
theorem determinism (ps₁ ps₂ : List Vec3) (n₁ n₂ : Nat)
    (hp : ps₁ = ps₂) (hn : n₁ = n₂) :
    (stepN n₁ (System.new ps₁)).state = (stepN n₂ (System.new ps₂)).state ∧
    (stepN n₁ (System.new ps₁)).total_energy
      = (stepN n₂ (System.new ps₂)).total_energy := by
  subst hp; subst hn; exact ⟨rfl, rfl⟩

/-- Witness for C8 at a concrete one-body input and one step. -/
theorem determinism_witness :
    ([(⟨1, 2, 3⟩ : Vec3)] = [(⟨1, 2, 3⟩ : Vec3)]) ∧ (1 = 1) ∧
    ((stepN 1 (System.new [⟨1, 2, 3⟩])).state
        = (stepN 1 (System.new [⟨1, 2, 3⟩])).state ∧
      (stepN 1 (System.new [⟨1, 2, 3⟩])).total_energy
        = (stepN 1 (System.new [⟨1, 2, 3⟩])).total_energy) :=
  ⟨rfl, rfl, determinism [⟨1, 2, 3⟩] [⟨1, 2, 3⟩] 1 1 rfl rfl⟩

/-- C9: from the first test fixture, ten steps give total energy 179. -/
theorem example1_energy :
    (stepN 10 (System.new [⟨-1, 0, 2⟩, ⟨2, -10, -7⟩, ⟨4, -8, 8⟩, ⟨3, 5, -1⟩])).total_energy
      = 179 := by
  decide

/-! Lemmas about the driver loop. -/

/-- One unfolding of the loop body. -/
theorem runLoop_succ (fuel : Nat) (system : System) (states : List (List Int))
    (count cap : Nat) :
    runLoop (fuel + 1) system states count cap =
      if count + 1 = cap then some (.energyAtCap system.step.total_energy)
      else if system.step.state ∈ states then some (.cycleFound (count + 1))
      else runLoop fuel system.step (system.step.state :: states) (count + 1) cap := rfl

/-- Membership in the seen-states list after `m` clean iterations: exactly the
states of iterations `1` through `m`; in particular the initial state is never
recorded. -/
theorem mem_seenUpTo (s : System) : ∀ (m : Nat) (x : List Int),
    x ∈ seenUpTo s m ↔ ∃ j, 1 ≤ j ∧ j ≤ m ∧ x = stateAt s j := by
  intro m
  induction m with
  | zero =>
    intro x
    simp only [seenUpTo, List.not_mem_nil, false_iff]
    rintro ⟨j, hj1, hj2, _⟩
    omega
  | succ m ih =>
    intro x
    simp only [seenUpTo, List.mem_cons, ih]
    constructor
    · rintro (rfl | ⟨j, hj1, hj2, rfl⟩)
      · exact ⟨m + 1, by omega, by omega, rfl⟩
      · exact ⟨j, hj1, by omega, rfl⟩
    · rintro ⟨j, hj1, hj2, rfl⟩
      by_cases hj : j = m + 1
      · subst hj; exact Or.inl rfl
      · exact Or.inr ⟨j, hj1, by omega, rfl⟩

/-- With fuel at least `cap - count` the loop always reaches a terminal
report. -/
theorem runLoop_isSome : ∀ (fuel : Nat) (s : System) (states : List (List Int))
    (count cap : Nat), count < cap → cap ≤ count + fuel →
    (runLoop fuel s states count cap).isSome = true := by
  intro fuel
  induction fuel with
  | zero => intro s states count cap h1 h2; omega
  | succ fuel ih =>
    intro s states count cap h1 h2
    rw [runLoop_succ]
    by_cases hc : count + 1 = cap
    · rw [if_pos hc]; rfl
    · rw [if_neg hc]
      by_cases hm : s.step.state ∈ states
      · rw [if_pos hm]; rfl
      · rw [if_neg hm]
        exact ih s.step _ (count + 1) cap (by omega) (by omega)

/-- When no duplicate occurs before the cap, the loop runs to the cap and
reports the energy there. -/
theorem runLoop_energy (s0 : System) (cap : Nat)
    (hdup : ∀ k, k < cap → ∀ j, j < k → 1 ≤ j → stateAt s0 j ≠ stateAt s0 k) :
    ∀ (fuel m : Nat), m < cap → cap ≤ m + fuel →
      runLoop fuel (stepN m s0) (seenUpTo s0 m) m cap =
        some (.energyAtCap (stepN cap s0).total_energy) := by
  intro fuel
  induction fuel with
  | zero => intro m h1 h2; omega
  | succ fuel ih =>
    intro m h1 h2
    rw [runLoop_succ]
    by_cases hc : m + 1 = cap
    · rw [if_pos hc]
      subst hc
      rfl
    · rw [if_neg hc]
      have hmem : (stepN m s0).step.state ∉ seenUpTo s0 m := by
        intro hmem
        rcases (mem_seenUpTo s0 m _).mp hmem with ⟨j, hj1, hj2, hj3⟩
        exact hdup (m + 1) (by omega) j (by omega) hj1 hj3.symm
      rw [if_neg hmem]
      exact ih (m + 1) (by omega) (by omega)

/-- C4: the driver terminates within the cap for every system, and when no
duplicate state is seen at any iteration before the cap it stops exactly at
the cap and reports the total energy there, never the cycle outcome; the
program instantiates the cap with 1000. -/
theorem driver_cap (s0 : System) (cap : Nat) (hcap : 0 < cap)
    (hdup : ∀ k, k < cap → ∀ j, j < k → 1 ≤ j → stateAt s0 j ≠ stateAt s0 k) :
    (∀ s1 : System, (runMain s1 cap).isSome = true) ∧
    runMain s0 cap = some (.energyAtCap (stepN cap s0).total_energy) := by
  constructor
  · intro s1
    exact runLoop_isSome cap s1 [] 0 cap hcap (by omega)
  · exact runLoop_energy s0 cap hdup cap 0 hcap (by omega)

/-- Witness for C4 at a concrete two-body system whose first two states are
distinct and a cap of 3. -/
theorem driver_cap_witness :
    (0 < 3) ∧
    (∀ k, k < 3 → ∀ j, j < k → 1 ≤ j →
      stateAt (System.new [⟨0, 0, 0⟩, ⟨3, 0, 0⟩]) j
        ≠ stateAt (System.new [⟨0, 0, 0⟩, ⟨3, 0, 0⟩]) k) ∧
    ((∀ s1 : System, (runMain s1 3).isSome = true) ∧
      runMain (System.new [⟨0, 0, 0⟩, ⟨3, 0, 0⟩]) 3
        = some (.energyAtCap (stepN 3 (System.new [⟨0, 0, 0⟩, ⟨3, 0, 0⟩])).total_energy)) :=
  ⟨by decide, by decide, driver_cap _ 3 (by decide) (by decide)⟩

/-- When iteration `k` is the first whose state matches a strictly earlier
recorded state, the loop stops there and reports `k`. -/
theorem runLoop_cycle (s0 : System) (cap k : Nat) (hk1 : 1 ≤ k) (hkcap : k < cap)
    (hdup : ∃ j, 1 ≤ j ∧ j < k ∧ stateAt s0 j = stateAt s0 k)
    (hmin : ∀ m, m < k → ∀ j, j < m → 1 ≤ j → stateAt s0 j ≠ stateAt s0 m) :
    ∀ (fuel m : Nat), m < k → k ≤ m + fuel →
      runLoop fuel (stepN m s0) (seenUpTo s0 m) m cap = some (.cycleFound k) := by
  intro fuel
  induction fuel with
  | zero => intro m h1 h2; omega
  | succ fuel ih =>
    intro m h1 h2
    rw [runLoop_succ]
    have hc : ¬(m + 1 = cap) := by omega
    rw [if_neg hc]
    by_cases hmk : m + 1 = k
    · have hmem : (stepN m s0).step.state ∈ seenUpTo s0 m := by
        rcases hdup with ⟨j, hj1, hj2, hj3⟩
        refine (mem_seenUpTo s0 m _).mpr ⟨j, hj1, by omega, ?_⟩
        rw [← hmk] at hj3
        exact hj3.symm
      rw [if_pos hmem, hmk]
    · have hmem : (stepN m s0).step.state ∉ seenUpTo s0 m := by
        intro hmem
        rcases (mem_seenUpTo s0 m _).mp hmem with ⟨j, hj1, hj2, hj3⟩
        exact hmin (m + 1) (by omega) j (by omega) hj1 hj3.symm
      rw [if_neg hmem]
      exact ih (m + 1) (by omega) (by omega)

/-- C5: every run reaches one of the two terminal outcomes, and when iteration
`k` is the first whose canonical state is already in the seen set the run
reports the cycle outcome with exactly that iteration count. -/
theorem driver_cycle (s0 : System) (cap k : Nat) (hk1 : 1 ≤ k) (hkcap : k < cap)
    (hdup : ∃ j, 1 ≤ j ∧ j < k ∧ stateAt s0 j = stateAt s0 k)
    (hmin : ∀ m, m < k → ∀ j, j < m → 1 ≤ j → stateAt s0 j ≠ stateAt s0 m) :
    (∀ s1 : System, ∃ o : Outcome, runMain s1 cap = some o) ∧
    runMain s0 cap = some (.cycleFound k) := by
  constructor
  · intro s1
    have h := runLoop_isSome cap s1 [] 0 cap (by omega) (by omega)
    exact ⟨(runLoop cap s1 [] 0 cap).get h, (Option.some_get h).symm⟩
  · exact runLoop_cycle s0 cap k hk1 hkcap hdup hmin cap 0 (by omega) (by omega)

/-- Witness for C5: two coincident bodies never move, so iteration 2 repeats
the state of iteration 1 and the run with the cap of 1000 reports the cycle at
count 2. -/
theorem driver_cycle_witness :
    (1 ≤ 2) ∧ (2 < 1000) ∧
    (∃ j, 1 ≤ j ∧ j < 2 ∧
      stateAt (System.new [⟨0, 0, 0⟩, ⟨0, 0, 0⟩]) j
        = stateAt (System.new [⟨0, 0, 0⟩, ⟨0, 0, 0⟩]) 2) ∧
    (∀ m, m < 2 → ∀ j, j < m → 1 ≤ j →
      stateAt (System.new [⟨0, 0, 0⟩, ⟨0, 0, 0⟩]) j
        ≠ stateAt (System.new [⟨0, 0, 0⟩, ⟨0, 0, 0⟩]) m) ∧
    ((∀ s1 : System, ∃ o : Outcome, runMain s1 1000 = some o) ∧
      runMain (System.new [⟨0, 0, 0⟩, ⟨0, 0, 0⟩]) 1000 = some (.cycleFound 2)) :=
  ⟨by decide, by decide, ⟨1, by decide, by decide, by decide⟩, by decide,
   driver_cycle _ 1000 2 (by decide) (by decide)
     ⟨1, by decide, by decide, by decide⟩ (by decide)⟩

/-- Any cycle report carries a count strictly above the counter the loop was
entered with. -/
theorem runLoop_count_lt : ∀ (fuel : Nat) (s : System) (states : List (List Int))
    (count cap j : Nat),
    runLoop fuel s states count cap = some (.cycleFound j) → count < j := by
  intro fuel
  induction fuel with
  | zero => intro s states count cap j h; simp [runLoop] at h
  | succ fuel ih =>
    intro s states count cap j h
    rw [runLoop_succ] at h
    by_cases hc : count + 1 = cap
    · rw [if_pos hc] at h
      simp at h
    · rw [if_neg hc] at h
      by_cases hm : s.step.state ∈ states
      · rw [if_pos hm] at h
        simp only [Option.some.injEq, Outcome.cycleFound.injEq] at h
        omega
      · rw [if_neg hm] at h
        have := ih s.step _ (count + 1) cap j h
        omega

/-- As long as the states of iterations `1, ..., k` are pairwise distinct, the
loop reaches iteration `k` without reporting, whatever the earlier states
equal. -/
theorem runLoop_skip (s0 : System) (cap k : Nat) (hkcap : k < cap)
    (hnodup : ∀ m, m ≤ k → ∀ j, j < m → 1 ≤ j → stateAt s0 j ≠ stateAt s0 m) :
    ∀ (fuel m : Nat), m ≤ k → k ≤ m + fuel →
      runLoop fuel (stepN m s0) (seenUpTo s0 m) m cap =
        runLoop (fuel - (k - m)) (stepN k s0) (seenUpTo s0 k) k cap := by
  intro fuel
  induction fuel with
  | zero =>
    intro m h1 h2
    have hm : m = k := by omega
    subst hm
    have hz : 0 - (m - m) = 0 := by omega
    rw [hz]
  | succ fuel ih =>
    intro m h1 h2
    by_cases hmk : m = k
    · subst hmk
      have hz : fuel + 1 - (m - m) = fuel + 1 := by omega
      rw [hz]
    · have hmlt : m < k := by omega
      rw [runLoop_succ]
      have hc : ¬(m + 1 = cap) := by omega
      rw [if_neg hc]
      have hmem : (stepN m s0).step.state ∉ seenUpTo s0 m := by
        intro hmem
        rcases (mem_seenUpTo s0 m _).mp hmem with ⟨j, hj1, hj2, hj3⟩
        exact hnodup (m + 1) (by omega) j (by omega) hj1 hj3.symm
      rw [if_neg hmem]
      have heq : fuel + 1 - (k - m) = fuel - (k - (m + 1)) := by omega
      rw [heq]
      exact ih (m + 1) (by omega) (by omega)

/-- C10: the seen set holds exactly the states of completed iterations `1`
through `m`, never the initial state; hence a trajectory whose state after
step `k` first returns to the initial state is not reported as a duplicate at
any iteration up to `k`, since a duplicate can only match a state recorded by
an earlier completed iteration. -/
theorem driver_ignores_initial_state (s0 : System) (cap k : Nat)
    (hk1 : 1 ≤ k) (hkcap : k < cap)
    (hret : stateAt s0 k = stateAt s0 0)
    (hnodup : ∀ m, m ≤ k → ∀ j, j < m → 1 ≤ j → stateAt s0 j ≠ stateAt s0 m) :
    (∀ (m : Nat) (x : List Int),
      x ∈ seenUpTo s0 m ↔ ∃ j, 1 ≤ j ∧ j ≤ m ∧ x = stateAt s0 j) ∧
    ∀ j, j ≤ k → runMain s0 cap ≠ some (.cycleFound j) := by
  refine ⟨mem_seenUpTo s0, ?_⟩
  intro j hj h
  have h0 : runLoop cap (stepN 0 s0) (seenUpTo s0 0) 0 cap
      = some (.cycleFound j) := h
  rw [runLoop_skip s0 cap k hkcap hnodup cap 0 (by omega) (by omega)] at h0
  have := runLoop_count_lt _ _ _ k cap j h0
  omega

/-- Witness for C10: a single motionless body returns to its initial state
after one step, yet no cycle is reported at iteration 1. -/
theorem driver_ignores_initial_state_witness :
    (1 ≤ 1) ∧ (1 < 1000) ∧
    (stateAt (System.new [⟨1, 2, 3⟩]) 1 = stateAt (System.new [⟨1, 2, 3⟩]) 0) ∧
    (∀ m, m ≤ 1 → ∀ j, j < m → 1 ≤ j →
      stateAt (System.new [⟨1, 2, 3⟩]) j ≠ stateAt (System.new [⟨1, 2, 3⟩]) m) ∧
    ((∀ (m : Nat) (x : List Int),
        x ∈ seenUpTo (System.new [⟨1, 2, 3⟩]) m ↔
          ∃ j, 1 ≤ j ∧ j ≤ m ∧ x = stateAt (System.new [⟨1, 2, 3⟩]) j) ∧
      ∀ j, j ≤ 1 → runMain (System.new [⟨1, 2, 3⟩]) 1000 ≠ some (.cycleFound j)) :=
  ⟨by decide, by decide, by decide, by decide,
   driver_ignores_initial_state _ 1000 1 (by decide) (by decide) (by decide) (by decide)⟩

/-! Lemmas about the pair enumeration and the step structure. -/

/-- Unfolding of the pair interaction when both slots are occupied. -/
theorem applyGravityPair_eq (bs : List Body) (i j : Nat) (a b : Body)
    (h1 : bs[i]? = some a) (h2 : bs[j]? = some b) :
    applyGravityPair bs i j
      = (bs.set i (Body.calc_gravity a b).1).set j (Body.calc_gravity a b).2 := by
  unfold applyGravityPair
  rw [h1, h2]

/-- The pair interaction is a no-op when the first index is out of range. -/
theorem applyGravityPair_none_left (bs : List Body) (i j : Nat)
    (h1 : bs[i]? = none) : applyGravityPair bs i j = bs := by
  unfold applyGravityPair
  rw [h1]

/-- The pair interaction is a no-op when the second index is out of range. -/
theorem applyGravityPair_none_right (bs : List Body) (i j : Nat)
    (h2 : bs[j]? = none) : applyGravityPair bs i j = bs := by
  unfold applyGravityPair
  rw [h2]
  cases bs[i]? <;> rfl

/-- Membership in the enumerated pair list. -/
theorem mem_pairs (n : Nat) (i j : Nat) : (i, j) ∈ pairs n ↔ i < j ∧ j < n := by
  constructor
  · intro h
    rcases List.mem_flatMap.mp h with ⟨a, _, hmem⟩
    rcases List.mem_map.mp hmem with ⟨b, hb, heq⟩
    rcases List.mem_filter.mp hb with ⟨hbr, hab⟩
    injection heq with hia hbj
    subst hia
    subst hbj
    exact ⟨of_decide_eq_true hab, List.mem_range.mp hbr⟩
  · rintro ⟨hij, hjn⟩
    refine List.mem_flatMap.mpr ⟨i, List.mem_range.mpr (by omega), ?_⟩
    exact List.mem_map.mpr
      ⟨j, List.mem_filter.mpr ⟨List.mem_range.mpr hjn, decide_eq_true hij⟩, rfl⟩

/-- The enumerated pair list has no repeats. -/
theorem nodup_pairs (n : Nat) : (pairs n).Nodup := by
  rw [pairs, List.nodup_flatMap]
  constructor
  · intro i _
    refine List.Nodup.map ?_ (List.Nodup.filter _ (List.nodup_range n))
    intro a b h
    injection h with h1 h2
  · refine List.Pairwise.imp ?_ (List.nodup_range n)
    intro a b hab x hx1 hx2
    rcases List.mem_map.mp hx1 with ⟨c, _, rfl⟩
    rcases List.mem_map.mp hx2 with ⟨d, _, heq⟩
    injection heq with h1 h2
    exact hab h1.symm

/-- C2: one step first folds the gravity interaction over the pair list, which
has no repeated entry and holds exactly the index pairs `i < j < n` (each
unordered pair of distinct bodies once), and only then maps the position
update over all bodies; no position changes before the whole gravity phase is
done. -/
theorem step_two_phase (s : System) :
    (pairs s.bodies.length).Nodup ∧
    (∀ i j, (i, j) ∈ pairs s.bodies.length ↔ i < j ∧ j < s.bodies.length) ∧
    s.step = ⟨(gravityFold s.bodies (pairs s.bodies.length)).map Body.update_pos⟩ :=
  ⟨nodup_pairs _, fun i j => mem_pairs _ i j, rfl⟩

/-- Witness for C2 on a concrete three-body system and the pair `(0, 2)`. -/
theorem step_two_phase_witness :
    (0, 2) ∈ pairs (System.new [⟨0, 0, 0⟩, ⟨1, 1, 1⟩, ⟨2, 2, 2⟩]).bodies.length ↔
      0 < 2 ∧ 2 < (System.new [⟨0, 0, 0⟩, ⟨1, 1, 1⟩, ⟨2, 2, 2⟩]).bodies.length :=
  (step_two_phase (System.new [⟨0, 0, 0⟩, ⟨1, 1, 1⟩, ⟨2, 2, 2⟩])).2.1 0 2

/-! Conservation of the per-axis velocity sum. -/

/-- The per-axis velocity aggregate of a body list under a projection. -/
def velSum (p : Vec3 → Int) (bs : List Body) : Int := (bs.map fun b => p b.velocity).sum

/-- Replacing one occupied slot shifts a mapped sum by the difference of the
images. -/
theorem sum_map_set (f : Body → Int) : ∀ (bs : List Body) (i : Nat) (b a : Body),
    bs[i]? = some b →
    ((bs.set i a).map f).sum = (bs.map f).sum - f b + f a := by
  intro bs
  induction bs with
  | nil => intro i b a h; simp at h
  | cons hd tl ih =>
    intro i b a h
    cases i with
    | zero =>
      simp only [List.getElem?_cons_zero, Option.some.injEq] at h
      subst h
      simp only [List.set_cons_zero, List.map_cons, List.sum_cons]
      ring
    | succ i =>
      simp only [List.getElem?_cons_succ] at h
      simp only [List.set_cons_succ, List.map_cons, List.sum_cons, ih i b a h]
      ring

/-- A single pair interaction does not change the projected velocity sum: the
two writes shift the two velocities by opposite signum amounts. -/
theorem velSum_applyGravityPair (p : Vec3 → Int)
    (hpair : ∀ a b : Body,
      p (Body.calc_gravity a b).1.velocity + p (Body.calc_gravity a b).2.velocity
        = p a.velocity + p b.velocity)
    (bs : List Body) (i j : Nat) :
    velSum p (applyGravityPair bs i j) = velSum p bs := by
  by_cases hij : i = j
  · subst hij; rw [applyGravityPair_self]
  · cases h1 : bs[i]? with
    | none => rw [applyGravityPair_none_left bs i j h1]
    | some a =>
      cases h2 : bs[j]? with
      | none => rw [applyGravityPair_none_right bs i j h2]
      | some b =>
        rw [applyGravityPair_eq bs i j a b h1 h2]
        have hset : (bs.set i (Body.calc_gravity a b).1)[j]? = some b := by
          rw [List.getElem?_set_ne hij]
          exact h2
        unfold velSum
        rw [sum_map_set _ _ j b _ hset, sum_map_set _ bs i a _ h1]
        have hp := hpair a b
        linarith

/-- The whole gravity phase preserves the projected velocity sum. -/
theorem velSum_gravityFold (p : Vec3 → Int)
    (hpair : ∀ a b : Body,
      p (Body.calc_gravity a b).1.velocity + p (Body.calc_gravity a b).2.velocity
        = p a.velocity + p b.velocity) :
    ∀ (l : List (Nat × Nat)) (bs : List Body),
      velSum p (gravityFold bs l) = velSum p bs := by
  intro l
  induction l with
  | nil => intro bs; rfl
  | cons q l ih =>
    intro bs
    show velSum p (gravityFold (applyGravityPair bs q.1 q.2) l) = velSum p bs
    rw [ih, velSum_applyGravityPair p hpair]

/-- A full step preserves the projected velocity sum, since the motion phase
leaves every velocity unchanged. -/
theorem velSum_step (p : Vec3 → Int)
    (hpair : ∀ a b : Body,
      p (Body.calc_gravity a b).1.velocity + p (Body.calc_gravity a b).2.velocity
        = p a.velocity + p b.velocity)
    (s : System) : velSum p s.step.bodies = velSum p s.bodies := by
  have hmap : ∀ bs : List Body, velSum p (bs.map Body.update_pos) = velSum p bs := by
    intro bs
    unfold velSum
    rw [List.map_map]
    rfl
  show velSum p ((gravityFold s.bodies (pairs s.bodies.length)).map Body.update_pos) = _
  rw [hmap, velSum_gravityFold p hpair]

/-- Iterated steps preserve the projected velocity sum. -/
theorem velSum_stepN (p : Vec3 → Int)
    (hpair : ∀ a b : Body,
      p (Body.calc_gravity a b).1.velocity + p (Body.calc_gravity a b).2.velocity
        = p a.velocity + p b.velocity)
    (s : System) : ∀ n, velSum p (stepN n s).bodies = velSum p s.bodies := by
  intro n
  induction n with
  | zero => rfl
  | succ n ih =>
    show velSum p (stepN n s).step.bodies = _
    rw [velSum_step p hpair, ih]

/-- A freshly constructed system has projected velocity sum zero whenever the
projection sends the zero vector to zero. -/
theorem velSum_new (p : Vec3 → Int) (hp : p Vec3.new = 0) :
    ∀ ps : List Vec3, velSum p (System.new ps).bodies = 0 := by
  intro ps
  induction ps with
  | nil => rfl
  | cons v l ih =>
    show p (Body.new v).velocity + velSum p (System.new l).bodies = 0
    rw [ih]
    show p Vec3.new + 0 = 0
    rw [hp]
    ring

/-- C3: on each axis the sum of all velocity components is invariant under a
step for every system, and over any number of steps from a fresh system it
stays at its initial value zero. -/
theorem velocity_sum_conserved (ps : List Vec3) (n : Nat) :
    (∀ s : System,
      velSum (fun v => v.x) s.step.bodies = velSum (fun v => v.x) s.bodies ∧
      velSum (fun v => v.y) s.step.bodies = velSum (fun v => v.y) s.bodies ∧
      velSum (fun v => v.z) s.step.bodies = velSum (fun v => v.z) s.bodies) ∧
    velSum (fun v => v.x) (stepN n (System.new ps)).bodies = 0 ∧
    velSum (fun v => v.y) (stepN n (System.new ps)).bodies = 0 ∧
    velSum (fun v => v.z) (stepN n (System.new ps)).bodies = 0 := by
  have hpx : ∀ a b : Body,
      (Body.calc_gravity a b).1.velocity.x + (Body.calc_gravity a b).2.velocity.x
        = a.velocity.x + b.velocity.x := by
    intro a b
    show a.velocity.x - (a.position.x - b.position.x).sign
        + (b.velocity.x + (a.position.x - b.position.x).sign) = a.velocity.x + b.velocity.x
    ring
  have hpy : ∀ a b : Body,
      (Body.calc_gravity a b).1.velocity.y + (Body.calc_gravity a b).2.velocity.y
        = a.velocity.y + b.velocity.y := by
    intro a b
    show a.velocity.y - (a.position.y - b.position.y).sign
        + (b.velocity.y + (a.position.y - b.position.y).sign) = a.velocity.y + b.velocity.y
    ring
  have hpz : ∀ a b : Body,
      (Body.calc_gravity a b).1.velocity.z + (Body.calc_gravity a b).2.velocity.z
        = a.velocity.z + b.velocity.z := by
    intro a b
    show a.velocity.z - (a.position.z - b.position.z).sign
        + (b.velocity.z + (a.position.z - b.position.z).sign) = a.velocity.z + b.velocity.z
    ring
  refine ⟨fun s => ⟨velSum_step _ hpx s, velSum_step _ hpy s, velSum_step _ hpz s⟩, ?_, ?_, ?_⟩
  · rw [velSum_stepN _ hpx _ n, velSum_new _ rfl]
  · rw [velSum_stepN _ hpy _ n, velSum_new _ rfl]
  · rw [velSum_stepN _ hpz _ n, velSum_new _ rfl]

/-! Symmetry and enumeration-order independence of the gravity phase. -/

/-- The per-axis signum vector of the difference of two positions. -/
def sgn3 (u v : Vec3) : Vec3 := ⟨(u.x - v.x).sign, (u.y - v.y).sign, (u.z - v.z).sign⟩

/-- Component-wise negation. -/
def Vec3.neg (v : Vec3) : Vec3 := ⟨-v.x, -v.y, -v.z⟩

/-- Unfolding of the velocity increment when the slot is occupied. -/
theorem addVel_some (bs : List Body) (m : Nat) (b : Body) (v : Vec3)
    (h : bs[m]? = some b) :
    addVel bs m v = bs.set m ⟨b.position, b.velocity.add v⟩ := by
  unfold addVel
  rw [h]

/-- The velocity increment is a no-op when the slot is empty. -/
theorem addVel_none (bs : List Body) (m : Nat) (v : Vec3)
    (h : bs[m]? = none) : addVel bs m v = bs := by
  unfold addVel
  rw [h]

/-- Writing a body with the same position into an occupied slot does not
change the positions visible through any index. -/
theorem posAt_set (bs : List Body) (m : Nat) (b c : Body) (hb : bs[m]? = some b)
    (hc : c.position = b.position) (k : Nat) :
    ((bs.set m c)[k]?).map Body.position = (bs[k]?).map Body.position := by
  by_cases hk : m = k
  · subst hk
    have hlt : m < bs.length := by
      rcases List.getElem?_eq_some.mp hb with ⟨hlt, _⟩
      exact hlt
    rw [List.getElem?_set_eq_of_lt c hlt, hb]
    simp [hc]
  · rw [List.getElem?_set_ne hk]

/-- Velocity increments do not change the positions visible through any
index. -/
theorem addVel_posAt (bs : List Body) (m : Nat) (v : Vec3) (k : Nat) :
    ((addVel bs m v)[k]?).map Body.position = (bs[k]?).map Body.position := by
  cases h : bs[m]? with
  | none => rw [addVel_none bs m v h]
  | some b =>
    rw [addVel_some bs m b v h]
    exact posAt_set bs m b ⟨b.position, b.velocity.add v⟩ h rfl k

/-- Adding on the same vector in the other order gives the same vector. -/
theorem Vec3.add_add_comm (u v w : Vec3) : (u.add v).add w = (u.add w).add v := by
  simp only [Vec3.add, Vec3.mk.injEq]
  refine ⟨by ring, by ring, by ring⟩

/-- Two velocity increments commute, whatever their target slots. -/
theorem addVel_comm (bs : List Body) (m m2 : Nat) (v w : Vec3) :
    addVel (addVel bs m v) m2 w = addVel (addVel bs m2 w) m v := by
  by_cases hmm : m = m2
  · subst hmm
    cases h : bs[m]? with
    | none => simp only [addVel_none bs m _ h]
    | some b =>
      rw [addVel_some bs m b v h, addVel_some bs m b w h]
      have hv : (bs.set m ⟨b.position, b.velocity.add v⟩)[m]? =
          some ⟨b.position, b.velocity.add v⟩ := by
        have hlt : m < bs.length := by
          rcases List.getElem?_eq_some.mp h with ⟨hlt, _⟩
          exact hlt
        exact List.getElem?_set_eq_of_lt _ hlt
      have hw : (bs.set m ⟨b.position, b.velocity.add w⟩)[m]? =
          some ⟨b.position, b.velocity.add w⟩ := by
        have hlt : m < bs.length := by
          rcases List.getElem?_eq_some.mp h with ⟨hlt, _⟩
          exact hlt
        exact List.getElem?_set_eq_of_lt _ hlt
      rw [addVel_some _ m _ w hv, addVel_some _ m _ v hw, List.set_set, List.set_set]
      exact congrArg (fun u => bs.set m ⟨b.position, u⟩) (Vec3.add_add_comm b.velocity v w)
  · cases h : bs[m]? with
    | none =>
      cases h2 : bs[m2]? with
      | none =>
        simp only [addVel_none bs m v h, addVel_none bs m2 w h2]
      | some b2 =>
        rw [addVel_none bs m v h, addVel_some bs m2 b2 w h2]
        have hnone : (bs.set m2 ⟨b2.position, b2.velocity.add w⟩)[m]? = none := by
          rw [List.getElem?_set_ne (fun hx => hmm hx.symm)]
          exact h
        rw [addVel_none _ m v hnone]
    | some b =>
      cases h2 : bs[m2]? with
      | none =>
        rw [addVel_some bs m b v h, addVel_none bs m2 w h2]
        have hnone : (bs.set m ⟨b.position, b.velocity.add v⟩)[m2]? = none := by
          rw [List.getElem?_set_ne hmm]
          exact h2
        rw [addVel_none _ m2 w hnone, addVel_some bs m b v h]
      | some b2 =>
        rw [addVel_some bs m b v h, addVel_some bs m2 b2 w h2]
        have hb2 : (bs.set m ⟨b.position, b.velocity.add v⟩)[m2]? = some b2 := by
          rw [List.getElem?_set_ne hmm]
          exact h2
        have hb : (bs.set m2 ⟨b2.position, b2.velocity.add w⟩)[m]? = some b := by
          rw [List.getElem?_set_ne (fun hx => hmm hx.symm)]
          exact h
        rw [addVel_some _ m2 b2 w hb2, addVel_some _ m b v hb]
        exact List.set_comm _ _ bs hmm

/-- The first output of an interaction is the first body with the negated
signum vector added to its velocity. -/
theorem calc_gravity_fst (a b : Body) :
    (Body.calc_gravity a b).1
      = ⟨a.position, a.velocity.add (sgn3 a.position b.position).neg⟩ := by
  simp only [Body.calc_gravity, Vec3.add, Vec3.neg, sgn3, Body.mk.injEq, Vec3.mk.injEq]
  refine ⟨trivial, by ring, by ring, by ring⟩

/-- The second output of an interaction is the second body with the signum
vector added to its velocity. -/
theorem calc_gravity_snd (a b : Body) :
    (Body.calc_gravity a b).2
      = ⟨b.position, b.velocity.add (sgn3 a.position b.position)⟩ := rfl

/-- A pair interaction on occupied distinct slots decomposes into two velocity
increments determined only by the two positions. -/
theorem applyGravityPair_addVel (bs : List Body) (i j : Nat) (a b : Body)
    (h1 : bs[i]? = some a) (h2 : bs[j]? = some b) :
    applyGravityPair bs i j
      = addVel (addVel bs i (sgn3 a.position b.position).neg) j
          (sgn3 a.position b.position) := by
  by_cases hij : i = j
  · subst hij
    rw [h1] at h2
    injection h2 with hab
    subst hab
    rw [applyGravityPair_self]
    have hz : sgn3 a.position a.position = ⟨0, 0, 0⟩ := by
      simp [sgn3]
    have hzn : (Vec3.neg ⟨0, 0, 0⟩ : Vec3) = ⟨0, 0, 0⟩ := by
      simp [Vec3.neg]
    have hvadd : ∀ u : Vec3, u.add ⟨0, 0, 0⟩ = u := by
      intro u
      simp [Vec3.add]
    have haddz : ∀ bs2 : List Body, bs2[i]? = some a → addVel bs2 i ⟨0, 0, 0⟩ = bs2 := by
      intro bs2 hget
      rw [addVel_some bs2 i a _ hget, hvadd]
      exact set_of_getElem_eq bs2 i a hget
    rw [hz, hzn, haddz bs h1, haddz bs h1]
  · rw [applyGravityPair_eq bs i j a b h1 h2, calc_gravity_fst, calc_gravity_snd,
      addVel_some bs i a _ h1]
    have hj : (bs.set i ⟨a.position, a.velocity.add (sgn3 a.position b.position).neg⟩)[j]?
        = some b := by
      rw [List.getElem?_set_ne hij]
      exact h2
    rw [addVel_some _ j b _ hj]

/-- A pair interaction preserves the list length. -/
theorem applyGravityPair_length (bs : List Body) (i j : Nat) :
    (applyGravityPair bs i j).length = bs.length := by
  unfold applyGravityPair
  cases bs[i]? <;> cases bs[j]? <;> simp [List.length_set]

/-- A pair interaction with an out-of-range index is a no-op. -/
theorem applyGravityPair_oob (bs : List Body) (i j : Nat)
    (h : bs.length ≤ i ∨ bs.length ≤ j) : applyGravityPair bs i j = bs := by
  rcases h with h | h
  · exact applyGravityPair_none_left bs i j (List.getElem?_eq_none h)
  · exact applyGravityPair_none_right bs i j (List.getElem?_eq_none h)

/-- After two velocity increments, every occupied slot is still occupied by a
body with the same position. -/
theorem addVel2_get (bs : List Body) (m1 m2 : Nat) (v1 v2 : Vec3) (i : Nat) (a : Body)
    (h : bs[i]? = some a) :
    ∃ a2, (addVel (addVel bs m1 v1) m2 v2)[i]? = some a2 ∧ a2.position = a.position := by
  have hp : ((addVel (addVel bs m1 v1) m2 v2)[i]?).map Body.position = some a.position := by
    rw [addVel_posAt, addVel_posAt, h]
    rfl
  rcases Option.map_eq_some'.mp hp with ⟨a2, ha2, hpa⟩
  exact ⟨a2, ha2, hpa⟩

/-- Four velocity increments can be reordered pairwise. -/
theorem addVel_chain_comm (bs : List Body) (m1 m2 m3 m4 : Nat) (v1 v2 v3 v4 : Vec3) :
    addVel (addVel (addVel (addVel bs m1 v1) m2 v2) m3 v3) m4 v4
      = addVel (addVel (addVel (addVel bs m3 v3) m4 v4) m1 v1) m2 v2 := by
  rw [addVel_comm (addVel bs m1 v1) m2 m3 v2 v3, addVel_comm bs m1 m3 v1 v3,
    addVel_comm (addVel (addVel bs m3 v3) m1 v1) m2 m4 v2 v4,
    addVel_comm (addVel bs m3 v3) m1 m4 v1 v4]

/-- Two pair interactions commute: the gravity fold is right-commutative. -/
theorem applyGravityPair_comm (bs : List Body) (p q : Nat × Nat) :
    applyGravityPair (applyGravityPair bs p.1 p.2) q.1 q.2
      = applyGravityPair (applyGravityPair bs q.1 q.2) p.1 p.2 := by
  rcases p with ⟨i, j⟩
  rcases q with ⟨k, l⟩
  simp only
  by_cases hp : i < bs.length ∧ j < bs.length
  · by_cases hq : k < bs.length ∧ l < bs.length
    · obtain ⟨a, h1⟩ : ∃ a, bs[i]? = some a := ⟨bs[i], List.getElem?_eq_getElem hp.1⟩
      obtain ⟨b, h2⟩ : ∃ b, bs[j]? = some b := ⟨bs[j], List.getElem?_eq_getElem hp.2⟩
      obtain ⟨c, h3⟩ : ∃ c, bs[k]? = some c := ⟨bs[k], List.getElem?_eq_getElem hq.1⟩
      obtain ⟨d, h4⟩ : ∃ d, bs[l]? = some d := ⟨bs[l], List.getElem?_eq_getElem hq.2⟩
      rw [applyGravityPair_addVel bs i j a b h1 h2,
        applyGravityPair_addVel bs k l c d h3 h4]
      obtain ⟨c2, hc2, hcp⟩ := addVel2_get bs i j ((sgn3 a.position b.position).neg)
        (sgn3 a.position b.position) k c h3
      obtain ⟨d2, hd2, hdp⟩ := addVel2_get bs i j ((sgn3 a.position b.position).neg)
        (sgn3 a.position b.position) l d h4
      rw [applyGravityPair_addVel _ k l c2 d2 hc2 hd2, hcp, hdp]
      obtain ⟨a2, ha2, hap⟩ := addVel2_get bs k l ((sgn3 c.position d.position).neg)
        (sgn3 c.position d.position) i a h1
      obtain ⟨b2, hb2, hbp⟩ := addVel2_get bs k l ((sgn3 c.position d.position).neg)
        (sgn3 c.position d.position) j b h2
      rw [applyGravityPair_addVel _ i j a2 b2 ha2 hb2, hap, hbp]
      exact addVel_chain_comm bs i j k l ((sgn3 a.position b.position).neg)
        (sgn3 a.position b.position) ((sgn3 c.position d.position).neg)
        (sgn3 c.position d.position)
    · have hq2 : bs.length ≤ k ∨ bs.length ≤ l := by omega
      rw [applyGravityPair_oob bs k l hq2]
      refine applyGravityPair_oob _ k l ?_
      rw [applyGravityPair_length]
      exact hq2
  · have hp2 : bs.length ≤ i ∨ bs.length ≤ j := by omega
    rw [applyGravityPair_oob bs i j hp2]
    have := applyGravityPair_oob (applyGravityPair bs k l) i j
      (by rw [applyGravityPair_length]; exact hp2)
    rw [this]

/-- The gravity phase gives the same result on any permutation of the pair
list. -/
theorem gravityFold_perm (bs : List Body) (l1 l2 : List (Nat × Nat))
    (h : l1.Perm l2) : gravityFold bs l1 = gravityFold bs l2 := by
  have hrc : RightCommutative
      (fun (bs : List Body) (p : Nat × Nat) => applyGravityPair bs p.1 p.2) :=
    ⟨fun b a1 a2 => applyGravityPair_comm b a1 a2⟩
  exact List.Perm.foldl_eq h bs

/-- The signum vector of the reversed difference is the negation. -/
theorem sgn3_neg (u v : Vec3) : (sgn3 v u).neg = sgn3 u v := by
  simp only [sgn3, Vec3.neg, Vec3.mk.injEq]
  refine ⟨?_, ?_, ?_⟩ <;> rw [← Int.sign_neg, neg_sub]

/-- Swapping the operands of the interaction swaps the two outputs. -/
theorem calc_gravity_swap (a b : Body) :
    (Body.calc_gravity b a).1 = (Body.calc_gravity a b).2 ∧
    (Body.calc_gravity b a).2 = (Body.calc_gravity a b).1 := by
  constructor
  · rw [calc_gravity_fst, calc_gravity_snd, sgn3_neg]
  · rw [calc_gravity_snd, calc_gravity_fst, sgn3_neg b.position a.position]

/-- C7: the pairwise gravity update is symmetric in its operands (the two
resulting bodies are the same with roles exchanged), and a step whose gravity
phase visits the unordered pairs in any order gives the same system as
`System.step`. -/
theorem gravity_symmetric (a b : Body) (s : System) (l : List (Nat × Nat))
    (hperm : l.Perm (pairs s.bodies.length)) :
    ((Body.calc_gravity b a).1 = (Body.calc_gravity a b).2 ∧
      (Body.calc_gravity b a).2 = (Body.calc_gravity a b).1) ∧
    s.stepWithPairs l = s.step := by
  refine ⟨calc_gravity_swap a b, ?_⟩
  show System.mk ((gravityFold s.bodies l).map Body.update_pos) = _
  rw [gravityFold_perm s.bodies l (pairs s.bodies.length) hperm]
  rfl

/-- Witness for C7 on a three-body system with a reordered pair list. -/
theorem gravity_symmetric_witness :
    (([(1, 2), (0, 1), (0, 2)] : List (Nat × Nat)).Perm
        (pairs (System.new [⟨0, 0, 0⟩, ⟨1, 1, 1⟩, ⟨2, 2, 2⟩]).bodies.length)) ∧
    (((Body.calc_gravity (Body.new ⟨0, 1, 0⟩) (Body.new ⟨1, 0, 0⟩)).1
        = (Body.calc_gravity (Body.new ⟨1, 0, 0⟩) (Body.new ⟨0, 1, 0⟩)).2 ∧
      (Body.calc_gravity (Body.new ⟨0, 1, 0⟩) (Body.new ⟨1, 0, 0⟩)).2
        = (Body.calc_gravity (Body.new ⟨1, 0, 0⟩) (Body.new ⟨0, 1, 0⟩)).1) ∧
      (System.new [⟨0, 0, 0⟩, ⟨1, 1, 1⟩, ⟨2, 2, 2⟩]).stepWithPairs [(1, 2), (0, 1), (0, 2)]
        = (System.new [⟨0, 0, 0⟩, ⟨1, 1, 1⟩, ⟨2, 2, 2⟩]).step) :=
  ⟨by decide, gravity_symmetric (Body.new ⟨1, 0, 0⟩) (Body.new ⟨0, 1, 0⟩) _ _ (by decide)⟩
